import Mathlib

/-!
Shallow embedding of the reading-history core of `src/plantSense.ino`
(ESP32 PlantSense sketch): the `Reading` record, the bounded in-memory
`history` vector, the JSON record codec used by `saveHistory` and
`loadHistory`, and the admission plus save-cadence logic of `addReading`.

Machine integers are modelled as `Nat` / `Int` with explicit reduction
modulo `2^8` / `2^32` where the C types (`uint8_t`, `int8_t`,
`uint32_t`, `unsigned long`) truncate.  The C `float` arguments of
`addReading` are modelled as `ℚ`; the only operations applied to them
(`round`, the comparisons inside `constrain`) are exact on the rational
embedding of every float value used in the claims.
-/

namespace PlantSense

/-- `const size_t MAX_HISTORY_POINTS = 500;` -/
def MAX_HISTORY_POINTS : Nat := 500

/-- `const unsigned long SAVE_INTERVAL_MS = 300000;` -/
def SAVE_INTERVAL_MS : Nat := 300000

/-- Modulus of the 32-bit `unsigned long` / `uint32_t` of the ESP32 target. -/
def UL_MOD : Nat := 4294967296

/-- C conversion of an integer value to `uint8_t` (reduction mod 2^8). -/
def u8 (x : Int) : Nat := (x % 256).toNat

/-- C conversion of an integer value to `uint32_t` / `unsigned long`
(reduction mod 2^32). -/
def u32 (x : Int) : Nat := (x % 4294967296).toNat

/-- C conversion of an integer value to `int8_t` (two's-complement
wrap-around into `[-128, 127]`). -/
def i8 (x : Int) : Int := (x + 128) % 256 - 128

/-- C `unsigned long` subtraction `a - b` (wrap-around mod 2^32), as used
in `millis() - lastSaveTime`. -/
def ulSub (a b : Nat) : Nat := (a % UL_MOD + (UL_MOD - b % UL_MOD)) % UL_MOD

/-- Arduino `constrain(amt, low, high)`: `(amt<low)?low:((amt>high)?high:amt)`. -/
def constrain (x lo hi : Int) : Int := if x < lo then lo else if hi < x then hi else x

/-- C `round` on the rational model of `float`: round half away from zero. -/
def roundC (q : ℚ) : Int := if q < 0 then -(Int.floor (-q + 1/2)) else Int.floor (q + 1/2)

/-- `struct Reading { uint32_t timestamp; uint8_t moisture; int8_t temp;
uint8_t humidity; };` with the C field types modelled as `Nat` / `Int`
(values produced by the program are kept in range by the explicit casts
`u32`, `u8`, `i8` at every assignment). -/
structure Reading where
  timestamp : Nat
  moisture : Nat
  temp : Int
  humidity : Nat
  deriving DecidableEq, Repr

/-- One serialized history record: a JSON object with the four short keys
`ts`, `m`, `t`, `h`; `none` models an absent key. -/
structure JsonRec where
  ts : Option Int
  m : Option Int
  t : Option Int
  h : Option Int
  deriving DecidableEq, Repr

/-- Body of the serialization loop of `saveHistory`:
`obj["ts"] = r.timestamp; obj["m"] = r.moisture; obj["t"] = r.temp;
obj["h"] = r.humidity;`. -/
def encodeRec (r : Reading) : JsonRec :=
  { ts := some (r.timestamp : Int)
    m := some (r.moisture : Int)
    t := some r.temp
    h := some (r.humidity : Int) }

/-- Serialized form of the whole history, as written by `saveHistory`'s
loop over `history`. -/
def encodeHistory (hist : List Reading) : List JsonRec := hist.map encodeRec

/-- ArduinoJson's `obj[key] | 0`: the default literal `0` has type `int`
(32-bit on the ESP32), and `operator|` returns `as<int>()` only when the
stored value passes `is<int>()` — a missing key, a value below `-2^31` or
a value at or above `2^31` all yield the default `0`. -/
def jsonOr0 (v : Option Int) : Int :=
  match v with
  | none => 0
  | some x => if -2147483648 ≤ x ∧ x < 2147483648 then x else 0

/-- Body of the deserialization loop of `loadHistory`:
`r.timestamp = obj["ts"] | 0; r.moisture = obj["m"] | 0;
r.temp = obj["t"] | 0; r.humidity = obj["h"] | 0;` — each `| 0` yields the
stored value when it fits a 32-bit `int` and `0` otherwise (`jsonOr0`),
and each assignment applies the C conversion to the field's type. -/
def decodeRec (o : JsonRec) : Reading :=
  { timestamp := u32 (jsonOr0 o.ts)
    moisture := u8 (jsonOr0 o.m)
    temp := i8 (jsonOr0 o.t)
    humidity := u8 (jsonOr0 o.h) }

/-- Observable state of the durable file `/history.json` as seen by
`loadHistory`: the file may be absent (`!LittleFS.exists`), may fail to
open for reading, may hold content on which `deserializeJson` reports an
error (this covers an empty file — `EmptyInput` — and syntactically
invalid content), or may parse as a JSON array of records. -/
inductive FileState where
  | absent
  | openFail
  | invalid
  | wellFormed (arr : List JsonRec)
  deriving DecidableEq

/-- `loadHistory()`: clears `history` first, then returns early (leaving
it empty) when the file is absent, unopenable, or fails to deserialize;
otherwise pushes one decoded `Reading` per element of the array.
`histAtCall` is the content of the global `history` vector when the
function is entered; the first statement `history.clear();` discards it. -/
def loadHistory (histAtCall : List Reading) (f : FileState) : List Reading :=
  let cleared : List Reading := []
  match f with
  | .absent => cleared
  | .openFail => cleared
  | .invalid => cleared
  | .wellFormed arr => arr.foldl (fun h o => h ++ [decodeRec o]) cleared

/-- `saveHistory()` result: `if (history.empty()) return true;` then the
write succeeds iff the file opens for writing (`writeOk`); on success the
serialized history is written and `true` returned, else `false`. -/
def saveHistory (hist : List Reading) (writeOk : Bool) : Bool :=
  if hist.isEmpty then true else writeOk

/-- The `Reading r` constructed at the top of `addReading`:
`r.timestamp = millis() / 1000; r.moisture = constrain(moisture, 0, 100);
r.temp = constrain((int)round(tempC), -20, 80);
r.humidity = constrain((int)round(hum), 0, 100);`
with `nowMs` the value of `millis()` during the call. -/
def mkReading (nowMs : Nat) (moisture : Int) (tempC hum : ℚ) : Reading :=
  { timestamp := nowMs % UL_MOD / 1000
    moisture := u8 (constrain moisture 0 100)
    temp := i8 (constrain (roundC tempC) (-20) 80)
    humidity := u8 (constrain (roundC hum) 0 100) }

/-- The eviction loop of `addReading`:
`while (history.size() > MAX_HISTORY_POINTS) { history.erase(history.begin()); }`. -/
def trimHistory : List Reading → List Reading
  | [] => []
  | r :: rest =>
    if (r :: rest).length > MAX_HISTORY_POINTS then trimHistory rest else r :: rest

/-- Result of one `addReading` call: the new `history`, the new
`lastSaveTime`, whether `saveHistory()` was invoked on this call, and —
when it was — the boolean it returned (the source discards this value). -/
structure AddResult where
  history : List Reading
  lastSaveTime : Nat
  saveInvoked : Bool
  saveResult : Option Bool
  deriving DecidableEq

/-- `addReading(int moisture, float tempC, float hum)`: build the clamped
reading, `history.push_back(r)`, evict from the head while over
`MAX_HISTORY_POINTS`, then
`unsigned long now = millis();
if (now - lastSaveTime >= SAVE_INTERVAL_MS) { saveHistory(); lastSaveTime = now; }`.
`hist` and `lastSave` are the globals `history` and `lastSaveTime` at
entry, `nowMs` is the value of `millis()` during the call, and `writeOk`
is whether the durable file opens for writing inside `saveHistory`. -/
def addReading (hist : List Reading) (lastSave : Nat) (nowMs : Nat)
    (moisture : Int) (tempC hum : ℚ) (writeOk : Bool) : AddResult :=
  let r := mkReading nowMs moisture tempC hum
  let h1 := trimHistory (hist ++ [r])
  let now := nowMs % UL_MOD
  if SAVE_INTERVAL_MS ≤ ulSub now lastSave then
    { history := h1, lastSaveTime := now, saveInvoked := true
      saveResult := some (saveHistory h1 writeOk) }
  else
    { history := h1, lastSaveTime := lastSave, saveInvoked := false, saveResult := none }

/-- One periodic invocation of `addReading`: the `millis()` value at the
tick, the three sensor arguments, and whether the durable file would open
for writing at that moment. -/
structure RecEvent where
  nowMs : Nat
  moisture : Int
  tempC : ℚ
  hum : ℚ
  writeOk : Bool
  deriving DecidableEq

/-- The `Reading` that the event's `addReading` call constructs. -/
def eventReading (e : RecEvent) : Reading := mkReading e.nowMs e.moisture e.tempC e.hum

/-- The `history` vector after a sequence of `addReading` calls. -/
def runHistory (hist : List Reading) (lastSave : Nat) : List RecEvent → List Reading
  | [] => hist
  | e :: rest =>
    let res := addReading hist lastSave e.nowMs e.moisture e.tempC e.hum e.writeOk
    runHistory res.history res.lastSaveTime rest

/-- The `millis()` values of the calls, within a sequence of `addReading`
calls, at which `saveHistory()` is invoked. -/
def saveInvocations (hist : List Reading) (lastSave : Nat) : List RecEvent → List Nat
  | [] => []
  | e :: rest =>
    let res := addReading hist lastSave e.nowMs e.moisture e.tempC e.hum e.writeOk
    if res.saveInvoked then e.nowMs :: saveInvocations res.history res.lastSaveTime rest
    else saveInvocations res.history res.lastSaveTime rest

/-- The domain ranges of a stored `Reading` stated by the spec:
moisture and humidity in `[0,100]`, temperature in `[-20,80]`
(the `Nat` fields are nonnegative by type). -/
def readingInRange (r : Reading) : Prop :=
  r.moisture ≤ 100 ∧ -20 ≤ r.temp ∧ r.temp ≤ 80 ∧ r.humidity ≤ 100

instance (r : Reading) : Decidable (readingInRange r) := by
  unfold readingInRange; infer_instance

/-! ### Lemmas about the eviction loop -/

theorem trimHistory_eq_drop (h : List Reading) :
    trimHistory h = h.drop (h.length - MAX_HISTORY_POINTS) := by
  induction h with
  | nil => simp [trimHistory]
  | cons r rest ih =>
    simp only [trimHistory]
    by_cases hlen : (r :: rest).length > MAX_HISTORY_POINTS
    · rw [if_pos hlen, ih]
      have h1 : (r :: rest).length - MAX_HISTORY_POINTS
          = (rest.length - MAX_HISTORY_POINTS) + 1 := by
        simp only [List.length_cons] at hlen ⊢; omega
      rw [h1, List.drop_succ_cons]
    · rw [if_neg hlen]
      have h0 : (r :: rest).length - MAX_HISTORY_POINTS = 0 := by
        simp only [List.length_cons] at hlen ⊢; omega
      rw [h0, List.drop_zero]

theorem addReading_pos {hist : List Reading} {lastSave nowMs : Nat}
    {m : Int} {t h : ℚ} {w : Bool}
    (hc : SAVE_INTERVAL_MS ≤ ulSub (nowMs % UL_MOD) lastSave) :
    addReading hist lastSave nowMs m t h w
      = { history := trimHistory (hist ++ [mkReading nowMs m t h])
          lastSaveTime := nowMs % UL_MOD
          saveInvoked := true
          saveResult := some (saveHistory (trimHistory (hist ++ [mkReading nowMs m t h])) w) } := by
  simp only [addReading]
  rw [if_pos hc]

theorem addReading_neg {hist : List Reading} {lastSave nowMs : Nat}
    {m : Int} {t h : ℚ} {w : Bool}
    (hc : ¬ SAVE_INTERVAL_MS ≤ ulSub (nowMs % UL_MOD) lastSave) :
    addReading hist lastSave nowMs m t h w
      = { history := trimHistory (hist ++ [mkReading nowMs m t h])
          lastSaveTime := lastSave
          saveInvoked := false
          saveResult := none } := by
  simp only [addReading]
  rw [if_neg hc]

theorem addReading_history (hist : List Reading) (lastSave nowMs : Nat)
    (m : Int) (t h : ℚ) (w : Bool) :
    (addReading hist lastSave nowMs m t h w).history
      = trimHistory (hist ++ [mkReading nowMs m t h]) := by
  by_cases hc : SAVE_INTERVAL_MS ≤ ulSub (nowMs % UL_MOD) lastSave
  · rw [addReading_pos hc]
  · rw [addReading_neg hc]

theorem foldl_pushEvict_eq_drop (rs : List Reading) :
    ∀ h0 : List Reading, h0.length ≤ MAX_HISTORY_POINTS →
      List.foldl (fun h r => trimHistory (h ++ [r])) h0 rs
        = (h0 ++ rs).drop (h0.length + rs.length - MAX_HISTORY_POINTS) := by
  induction rs with
  | nil =>
    intro h0 hle
    simp only [List.foldl_nil, List.append_nil, List.length_nil]
    have h0' : h0.length + 0 - MAX_HISTORY_POINTS = 0 := by omega
    rw [h0', List.drop_zero]
  | cons r rest ih =>
    intro h0 hle
    rw [List.foldl_cons]
    have htrim : trimHistory (h0 ++ [r])
        = (h0 ++ [r]).drop (h0.length + 1 - MAX_HISTORY_POINTS) := by
      rw [trimHistory_eq_drop, List.length_append, List.length_singleton]
    have hlen1 : (trimHistory (h0 ++ [r])).length ≤ MAX_HISTORY_POINTS := by
      rw [htrim, List.length_drop, List.length_append, List.length_singleton]
      omega
    rw [ih _ hlen1, htrim, List.length_drop, List.length_append, List.length_singleton]
    rw [← List.drop_append_of_le_length
      (by rw [List.length_append, List.length_singleton]; omega)]
    rw [List.drop_drop, List.append_assoc, List.singleton_append]
    have harith : h0.length + 1 - MAX_HISTORY_POINTS
          + (h0.length + 1 - (h0.length + 1 - MAX_HISTORY_POINTS)
              + rest.length - MAX_HISTORY_POINTS)
        = h0.length + (r :: rest).length - MAX_HISTORY_POINTS := by
      rw [List.length_cons]; omega
    rw [harith]

theorem runHistory_eq_foldl (evs : List RecEvent) :
    ∀ (hist : List Reading) (lastSave : Nat),
      runHistory hist lastSave evs
        = List.foldl (fun h r => trimHistory (h ++ [r])) hist (evs.map eventReading) := by
  induction evs with
  | nil => intro hist lastSave; rfl
  | cons e rest ih =>
    intro hist lastSave
    simp only [runHistory, List.map_cons, List.foldl_cons]
    rw [addReading_history]
    exact ih _ _

/-- C1: starting from any `history` of length at most `MAX_HISTORY_POINTS`
(500), every sequence of `addReading` calls leaves `history` of length at
most 500 (the quantification over all event sequences covers the state
after each individual call), and once at least 500 calls have been made,
`history` is exactly the most recent 500 appended readings in append
order. -/
theorem history_capacity_invariant (hist : List Reading) (lastSave : Nat)
    (evs : List RecEvent) (hle : hist.length ≤ MAX_HISTORY_POINTS) :
    (runHistory hist lastSave evs).length ≤ MAX_HISTORY_POINTS ∧
      (MAX_HISTORY_POINTS ≤ evs.length →
        runHistory hist lastSave evs
          = (evs.map eventReading).drop (evs.length - MAX_HISTORY_POINTS)) := by
  have hrun := runHistory_eq_foldl evs hist lastSave
  have hfold := foldl_pushEvict_eq_drop (evs.map eventReading) hist hle
  rw [List.length_map] at hfold
  constructor
  · rw [hrun, hfold, List.length_drop, List.length_append, List.length_map]
    omega
  · intro hk
    rw [hrun, hfold]
    have hidx : hist.length + evs.length - MAX_HISTORY_POINTS
        = hist.length + (evs.length - MAX_HISTORY_POINTS) := by omega
    rw [hidx, List.drop_append]

/-- Witness for C1 at a concrete one-event run from the empty history. -/
theorem history_capacity_invariant_witness :
    (runHistory [] 0 [(⟨5000, 50, 20, 60, true⟩ : RecEvent)]).length ≤ MAX_HISTORY_POINTS ∧
      (MAX_HISTORY_POINTS ≤ [(⟨5000, 50, 20, 60, true⟩ : RecEvent)].length →
        runHistory [] 0 [(⟨5000, 50, 20, 60, true⟩ : RecEvent)]
          = ([(⟨5000, 50, 20, 60, true⟩ : RecEvent)].map eventReading).drop
              ([(⟨5000, 50, 20, 60, true⟩ : RecEvent)].length - MAX_HISTORY_POINTS)) :=
  history_capacity_invariant [] 0 [⟨5000, 50, 20, 60, true⟩] (by decide)

/-- C4: appending one reading to a `history` exactly at capacity evicts
exactly the single oldest element — the result is `hist.tail` followed by
the new reading, whose position is the tail of the store. -/
theorem eviction_removes_head (hist : List Reading) (lastSave nowMs : Nat)
    (m : Int) (t h : ℚ) (w : Bool) (hlen : hist.length = MAX_HISTORY_POINTS) :
    (addReading hist lastSave nowMs m t h w).history
        = hist.tail ++ [mkReading nowMs m t h] ∧
      (addReading hist lastSave nowMs m t h w).history.getLast?
        = some (mkReading nowMs m t h) := by
  have h1 : (addReading hist lastSave nowMs m t h w).history
      = hist.tail ++ [mkReading nowMs m t h] := by
    rw [addReading_history, trimHistory_eq_drop, List.length_append,
      List.length_singleton, hlen]
    have hidx : MAX_HISTORY_POINTS + 1 - MAX_HISTORY_POINTS = 1 := by omega
    rw [hidx, List.drop_append_of_le_length (by rw [hlen]; decide), List.drop_one]
  exact ⟨h1, by rw [h1, List.getLast?_concat]⟩

/-- Witness for C4 at a history of exactly 500 readings. -/
theorem eviction_removes_head_witness :
    (addReading (List.replicate 500 (mkReading 0 0 0 0)) 0 5000 50 20 60 true).history
        = (List.replicate 500 (mkReading 0 0 0 0)).tail ++ [mkReading 5000 50 20 60] ∧
      (addReading (List.replicate 500 (mkReading 0 0 0 0)) 0 5000 50 20 60 true).history.getLast?
        = some (mkReading 5000 50 20 60) :=
  eviction_removes_head (List.replicate 500 (mkReading 0 0 0 0)) 0 5000 50 20 60 true
    (by rw [List.length_replicate]; rfl)

theorem trimHistory_append_getLast (hist : List Reading) (r : Reading) :
    (trimHistory (hist ++ [r])).getLast? = some r := by
  have hM : 1 ≤ MAX_HISTORY_POINTS := by decide
  rw [trimHistory_eq_drop, List.length_append, List.length_singleton]
  rw [List.drop_append_of_le_length (by omega), List.getLast?_concat]

/-- C9: `addReading(-5, 999, -1)` admits the sample by clamping: the
constructed reading has moisture 0, temperature 80, humidity 0, and it is
stored (it becomes the last element of `history`), not rejected. -/
theorem record_clamps_out_of_domain (hist : List Reading) (lastSave nowMs : Nat)
    (w : Bool) :
    (mkReading nowMs (-5) 999 (-1)).moisture = 0 ∧
      (mkReading nowMs (-5) 999 (-1)).temp = 80 ∧
      (mkReading nowMs (-5) 999 (-1)).humidity = 0 ∧
      (addReading hist lastSave nowMs (-5) 999 (-1) w).history.getLast?
        = some (mkReading nowMs (-5) 999 (-1)) := by
  have h999 : roundC (999 : ℚ) = 999 := by
    rw [roundC, if_neg (by norm_num)]; norm_num
  have hm1 : roundC (-1 : ℚ) = -1 := by
    rw [roundC, if_pos (by norm_num)]; norm_num
  have ht : i8 (constrain (roundC (999 : ℚ)) (-20) 80) = 80 := by rw [h999]; decide
  have hh : u8 (constrain (roundC (-1 : ℚ)) 0 100) = 0 := by rw [hm1]; decide
  refine ⟨rfl, ht, hh, ?_⟩
  rw [addReading_history]
  exact trimHistory_append_getLast _ _

/-! ### Codec and persistence lemmas -/

theorem loadHistory_wellFormed (histAtCall : List Reading) (arr : List JsonRec) :
    loadHistory histAtCall (FileState.wellFormed arr) = arr.map decodeRec := by
  have haux : ∀ (l : List JsonRec) (acc : List Reading),
      l.foldl (fun h o => h ++ [decodeRec o]) acc = acc ++ l.map decodeRec := by
    intro l
    induction l with
    | nil => intro acc; simp
    | cons o rest ih =>
      intro acc
      rw [List.foldl_cons, ih, List.map_cons, List.append_assoc, List.singleton_append]
  simp only [loadHistory]
  rw [haux, List.nil_append]

/-- C5 counterexample: the reading `⟨2^31, 50, 20, 60⟩` has every field in
the declared domains (`timestamp` is a 32-bit unsigned value), yet
decoding its encoding yields timestamp `0`, not `2^31`: the stored
value `2147483648` fails ArduinoJson's `is<int>()` fits check, so
`obj["ts"] | 0` returns the default. -/
theorem decode_encode_counterexample :
    decodeRec (encodeRec ⟨2147483648, 50, 20, 60⟩) ≠ ⟨2147483648, 50, 20, 60⟩ ∧
      (decodeRec (encodeRec ⟨2147483648, 50, 20, 60⟩)).timestamp = 0 ∧
      (2147483648 : Nat) < 4294967296 := by decide

/-- C5 amended: decoding the encoding of any `Reading` whose fields lie in
the declared domains reproduces it exactly, provided the timestamp also
fits a 32-bit signed `int` (`timestamp < 2^31`, which every
`millis()/1000` value the device produces satisfies); for timestamps in
`[2^31, 2^32)` the `| 0` fits check makes the decoded timestamp `0`
instead. -/
theorem decode_encode_roundtrip (r : Reading)
    (hts : r.timestamp < 2147483648) (hm : r.moisture ≤ 100)
    (htl : -20 ≤ r.temp) (hth : r.temp ≤ 80) (hh : r.humidity ≤ 100) :
    decodeRec (encodeRec r) = r := by
  obtain ⟨ts, m, t, h⟩ := r
  simp only at hts hm htl hth hh
  simp only [decodeRec, encodeRec, u32, u8, i8, jsonOr0, Reading.mk.injEq]
  refine ⟨?_, ?_, ?_, ?_⟩ <;> (split_ifs <;> omega)

/-- Witness for C5 at a concrete in-domain reading. -/
theorem decode_encode_roundtrip_witness :
    decodeRec (encodeRec ⟨1234, 55, -5, 60⟩) = ⟨1234, 55, -5, 60⟩ :=
  decode_encode_roundtrip ⟨1234, 55, -5, 60⟩ (by decide) (by decide) (by decide)
    (by decide) (by decide)

/-- C6: `loadHistory` entered with any prior in-memory history returns an
empty history whenever the durable file is absent, cannot be opened, or
fails to deserialize (`FileState.invalid` covers both an empty file —
ArduinoJson's `EmptyInput` error — and syntactically invalid content);
the model is a total function, so no branch raises or crashes. -/
theorem load_degraded_empty (histAtCall : List Reading) :
    loadHistory histAtCall FileState.absent = [] ∧
      loadHistory histAtCall FileState.openFail = [] ∧
      loadHistory histAtCall FileState.invalid = [] :=
  ⟨rfl, rfl, rfl⟩

/-- C7: a serialized record with any missing field decodes successfully
with `0` substituted for that field, and decoding the array is an
element-wise map — a malformed record never aborts the decoding of the
remaining records (the loaded history always has one reading per array
element). -/
theorem decode_missing_fields (o : JsonRec) :
    (o.ts = none → (decodeRec o).timestamp = 0) ∧
      (o.m = none → (decodeRec o).moisture = 0) ∧
      (o.t = none → (decodeRec o).temp = 0) ∧
      (o.h = none → (decodeRec o).humidity = 0) ∧
      ∀ (arr : List JsonRec) (histAtCall : List Reading),
        loadHistory histAtCall (FileState.wellFormed arr) = arr.map decodeRec ∧
          (loadHistory histAtCall (FileState.wellFormed arr)).length = arr.length := by
  refine ⟨?_, ?_, ?_, ?_, ?_⟩
  · intro hnone; simp [decodeRec, hnone, jsonOr0, u32]
  · intro hnone; simp [decodeRec, hnone, jsonOr0, u8]
  · intro hnone; simp [decodeRec, hnone, jsonOr0, i8]
  · intro hnone; simp [decodeRec, hnone, jsonOr0, u8]
  · intro arr histAtCall
    refine ⟨loadHistory_wellFormed histAtCall arr, ?_⟩
    rw [loadHistory_wellFormed, List.length_map]

/-- Witness for C7 at the record with all four fields missing. -/
theorem decode_missing_fields_witness :
    (decodeRec ⟨none, none, none, none⟩).timestamp = 0 ∧
      (decodeRec ⟨none, none, none, none⟩).moisture = 0 ∧
      (decodeRec ⟨none, none, none, none⟩).temp = 0 ∧
      (decodeRec ⟨none, none, none, none⟩).humidity = 0 :=
  ⟨(decode_missing_fields ⟨none, none, none, none⟩).1 rfl,
    (decode_missing_fields ⟨none, none, none, none⟩).2.1 rfl,
    (decode_missing_fields ⟨none, none, none, none⟩).2.2.1 rfl,
    (decode_missing_fields ⟨none, none, none, none⟩).2.2.2.1 rfl⟩

/-- C10: `loadHistory` discards the in-memory history before repopulating,
so its result depends only on the durable file; in particular loading
twice from a fixed file equals loading once. -/
theorem load_ignores_prior_state :
    (∀ (f : FileState) (old1 old2 : List Reading),
        loadHistory old1 f = loadHistory old2 f) ∧
      ∀ (f : FileState) (old : List Reading),
        loadHistory (loadHistory old f) f = loadHistory old f := by
  constructor
  · intro f old1 old2; cases f <;> rfl
  · intro f old; cases f <;> rfl

/-! ### Domain-range lemmas (C3) -/

theorem constrain_bounds (x lo hi : Int) (hlh : lo ≤ hi) :
    lo ≤ constrain x lo hi ∧ constrain x lo hi ≤ hi := by
  unfold constrain
  split_ifs <;> omega

theorem mkReading_inRange (nowMs : Nat) (m : Int) (t h : ℚ) :
    readingInRange (mkReading nowMs m t h) := by
  obtain ⟨h1, h2⟩ := constrain_bounds m 0 100 (by omega)
  obtain ⟨h3, h4⟩ := constrain_bounds (roundC t) (-20) 80 (by omega)
  obtain ⟨h5, h6⟩ := constrain_bounds (roundC h) 0 100 (by omega)
  simp only [readingInRange, mkReading, u8, i8]
  omega

theorem decode_encode_inRange (y : Reading) (hy : readingInRange y) :
    readingInRange (decodeRec (encodeRec y)) := by
  obtain ⟨h1, h2, h3, h4⟩ := hy
  simp only [readingInRange, decodeRec, encodeRec, u8, i8, jsonOr0]
  split_ifs <;> omega

/-- C3 counterexample: the claim is false for the load mutation — a
well-formed durable file holding the single record
`{ts: 0, m: 200, t: 0, h: 0}` populates the history with a reading whose
moisture is 200, outside `[0,100]` (`loadHistory` performs no range
enforcement). -/
theorem load_range_counterexample :
    ¬ ∀ r ∈ loadHistory [] (FileState.wellFormed [⟨some 0, some 200, some 0, some 0⟩]),
        readingInRange r := by decide

/-- C3 amended: every reading admitted by `addReading` satisfies the
domain ranges, so any history mutated only by `addReading` from an
in-range state stays in range after each mutation; `loadHistory` enforces
no ranges, so after a load the invariant holds only when the decoded file
contents are in range — in particular when the file is the serialization
of an in-range history, as every file written by `saveHistory` is. -/
theorem readingRanges_amended :
    (∀ (nowMs : Nat) (m : Int) (t h : ℚ), readingInRange (mkReading nowMs m t h)) ∧
      (∀ (hist : List Reading) (lastSave nowMs : Nat) (m : Int) (t h : ℚ) (w : Bool),
        (∀ x ∈ hist, readingInRange x) →
          ∀ x ∈ (addReading hist lastSave nowMs m t h w).history, readingInRange x) ∧
      (∀ (hist histAtCall : List Reading),
        (∀ x ∈ hist, readingInRange x) →
          ∀ x ∈ loadHistory histAtCall (FileState.wellFormed (encodeHistory hist)),
            readingInRange x) := by
  refine ⟨mkReading_inRange, ?_, ?_⟩
  · intro hist lastSave nowMs m t h w hall x hx
    rw [addReading_history, trimHistory_eq_drop] at hx
    have hx' := List.drop_subset _ _ hx
    rcases List.mem_append.mp hx' with hmem | hmem
    · exact hall x hmem
    · rcases List.mem_singleton.mp hmem with rfl
      exact mkReading_inRange _ _ _ _
  · intro hist histAtCall hall x hx
    rw [loadHistory_wellFormed, encodeHistory, List.map_map] at hx
    rcases List.mem_map.mp hx with ⟨y, hy, rfl⟩
    exact decode_encode_inRange y (hall y hy)

/-- Witness for the amended C3: loading the serialization of the
single-reading in-range history `[⟨5, 50, 25, 60⟩]` yields only in-range
readings. -/
theorem readingRanges_amended_witness :
    readingInRange (decodeRec (encodeRec ⟨5, 50, 25, 60⟩)) :=
  readingRanges_amended.2.2 [⟨5, 50, 25, 60⟩] [] (by decide)
    (decodeRec (encodeRec ⟨5, 50, 25, 60⟩)) (by decide)

/-! ### Save-cadence lemmas (C2, C8) -/

/-- C2 counterexample: at `history = []`, `lastSaveTime = 0`,
`millis() = 300000` the interval has elapsed, `saveHistory` is invoked and
fails (the file does not open for writing), yet `lastSaveTime` is updated
to 300000 anyway — the source discards `saveHistory`'s return value, so a
failed flush is not retried on the next tick any sooner. -/
theorem save_failure_reset_counterexample :
    (addReading [] 0 300000 50 20 60 false).saveInvoked = true ∧
      (addReading [] 0 300000 50 20 60 false).saveResult = some false ∧
      (addReading [] 0 300000 50 20 60 false).lastSaveTime = 300000 ∧
      (300000 : Nat) ≠ 0 := by
  have hc : SAVE_INTERVAL_MS ≤ ulSub (300000 % UL_MOD) 0 := by decide
  rw [addReading_pos hc]
  refine ⟨rfl, ?_, by decide, by decide⟩
  have hsave : saveHistory (trimHistory ([] ++ [mkReading 300000 50 20 60])) false
      = false := rfl
  rw [hsave]

/-- C2 amended: when the `unsigned long` time since the last save
invocation reaches `SAVE_INTERVAL_MS`, `addReading` invokes `saveHistory`
on the just-updated history and resets `lastSaveTime` to the current
`millis()` value regardless of whether the save succeeded or failed (the
boolean result is discarded); below the interval no save is invoked and
`lastSaveTime` is unchanged. -/
theorem save_cadence_update (hist : List Reading) (lastSave nowMs : Nat)
    (m : Int) (t h : ℚ) (w : Bool) :
    (SAVE_INTERVAL_MS ≤ ulSub (nowMs % UL_MOD) lastSave →
      (addReading hist lastSave nowMs m t h w).saveInvoked = true ∧
        (addReading hist lastSave nowMs m t h w).saveResult
          = some (saveHistory (addReading hist lastSave nowMs m t h w).history w) ∧
        (addReading hist lastSave nowMs m t h w).lastSaveTime = nowMs % UL_MOD) ∧
      (ulSub (nowMs % UL_MOD) lastSave < SAVE_INTERVAL_MS →
        (addReading hist lastSave nowMs m t h w).saveInvoked = false ∧
          (addReading hist lastSave nowMs m t h w).saveResult = none ∧
          (addReading hist lastSave nowMs m t h w).lastSaveTime = lastSave) := by
  constructor
  · intro hc
    rw [addReading_pos hc]
    exact ⟨rfl, rfl, rfl⟩
  · intro hc
    rw [addReading_neg (by omega)]
    exact ⟨rfl, rfl, rfl⟩

/-- Witness for the amended C2 at a concrete elapsed-interval call. -/
theorem save_cadence_update_witness :
    (addReading [] 0 300000 50 20 60 true).saveInvoked = true ∧
      (addReading [] 0 300000 50 20 60 true).saveResult
        = some (saveHistory (addReading [] 0 300000 50 20 60 true).history true) ∧
      (addReading [] 0 300000 50 20 60 true).lastSaveTime = 300000 % UL_MOD :=
  (save_cadence_update [] 0 300000 50 20 60 true).1 (by decide)

theorem ulSub_of_le (a b : Nat) (hba : b ≤ a) (ha : a < UL_MOD) :
    ulSub a b = a - b := by
  unfold ulSub UL_MOD at *
  omega

theorem saveInvocations_head_bound :
    ∀ (evs : List RecEvent) (hist : List Reading) (last : Nat),
      last < UL_MOD →
      (∀ e ∈ evs, last ≤ e.nowMs ∧ e.nowMs < UL_MOD) →
      List.Pairwise (fun a b : RecEvent => a.nowMs ≤ b.nowMs) evs →
      ∀ s ∈ saveInvocations hist last evs, last + SAVE_INTERVAL_MS ≤ s := by
  intro evs
  induction evs with
  | nil =>
    intro hist last _ _ _ s hs
    simp [saveInvocations] at hs
  | cons e rest ih =>
    intro hist last hlast hbound horder s hs
    have hb := hbound e (List.mem_cons_self e rest)
    rw [List.pairwise_cons] at horder
    have heq : e.nowMs % UL_MOD = e.nowMs := Nat.mod_eq_of_lt hb.2
    by_cases hc : SAVE_INTERVAL_MS ≤ ulSub (e.nowMs % UL_MOD) last
    · rw [saveInvocations, addReading_pos hc] at hs
      simp only [if_pos] at hs
      have hdiff : ulSub e.nowMs last = e.nowMs - last := ulSub_of_le _ _ hb.1 hb.2
      rw [heq, hdiff] at hc
      rcases List.mem_cons.mp hs with rfl | hmem
      · omega
      · rw [heq] at hmem
        have hrec := ih _ e.nowMs hb.2
          (fun e' he' => ⟨horder.1 e' he', (hbound e' (List.mem_cons_of_mem e he')).2⟩)
          horder.2 s hmem
        omega
    · rw [saveInvocations, addReading_neg hc] at hs
      simp only [Bool.false_eq_true, if_false] at hs
      exact ih _ last hlast
        (fun e' he' => hbound e' (List.mem_cons_of_mem e he'))
        horder.2 s hs

theorem saveInvocations_pairwise :
    ∀ (evs : List RecEvent) (hist : List Reading) (last : Nat),
      last < UL_MOD →
      (∀ e ∈ evs, last ≤ e.nowMs ∧ e.nowMs < UL_MOD) →
      List.Pairwise (fun a b : RecEvent => a.nowMs ≤ b.nowMs) evs →
      List.Pairwise (fun a b : Nat => a + SAVE_INTERVAL_MS ≤ b)
        (saveInvocations hist last evs) := by
  intro evs
  induction evs with
  | nil => intro hist last _ _ _; simp [saveInvocations]
  | cons e rest ih =>
    intro hist last hlast hbound horder
    have hb := hbound e (List.mem_cons_self e rest)
    rw [List.pairwise_cons] at horder
    have heq : e.nowMs % UL_MOD = e.nowMs := Nat.mod_eq_of_lt hb.2
    by_cases hc : SAVE_INTERVAL_MS ≤ ulSub (e.nowMs % UL_MOD) last
    · rw [saveInvocations, addReading_pos hc]
      simp only [if_pos]
      rw [List.pairwise_cons]
      constructor
      · intro s hs
        rw [heq] at hs
        exact saveInvocations_head_bound rest _ e.nowMs hb.2
          (fun e' he' => ⟨horder.1 e' he', (hbound e' (List.mem_cons_of_mem e he')).2⟩)
          horder.2 s hs
      · rw [heq]
        exact ih _ e.nowMs hb.2
          (fun e' he' => ⟨horder.1 e' he', (hbound e' (List.mem_cons_of_mem e he')).2⟩)
          horder.2
    · rw [saveInvocations, addReading_neg hc]
      simp only [Bool.false_eq_true, if_false]
      exact ih _ last hlast
        (fun e' he' => hbound e' (List.mem_cons_of_mem e he'))
        horder.2

/-- C8: over any sequence of `addReading` calls whose `millis()` values
are nondecreasing 32-bit values (the device clock is monotone between
boots), the times at which `saveHistory` is invoked are pairwise at least
`SAVE_INTERVAL_MS` = 300000 ms apart — at most one save per interval, no
matter how many calls fall inside it. -/
theorem save_at_most_once_per_interval (evs : List RecEvent) (hist : List Reading)
    (hbound : ∀ e ∈ evs, e.nowMs < UL_MOD)
    (horder : List.Pairwise (fun a b : RecEvent => a.nowMs ≤ b.nowMs) evs) :
    List.Pairwise (fun a b : Nat => a + SAVE_INTERVAL_MS ≤ b)
      (saveInvocations hist 0 evs) :=
  saveInvocations_pairwise evs hist 0 (by decide)
    (fun e he => ⟨Nat.zero_le _, hbound e he⟩) horder

/-- Witness for C8 at a concrete three-call sequence (two saves occur,
300000 ms apart). -/
theorem save_at_most_once_per_interval_witness :
    List.Pairwise (fun a b : Nat => a + SAVE_INTERVAL_MS ≤ b)
      (saveInvocations [] 0
        [(⟨300000, 50, 20, 60, true⟩ : RecEvent),
          (⟨400000, 40, 21, 61, false⟩ : RecEvent),
          (⟨600000, 30, 22, 62, true⟩ : RecEvent)]) :=
  save_at_most_once_per_interval _ []
    (by intro e he; fin_cases he <;> decide)
    (by
      refine List.Pairwise.cons ?_ (List.Pairwise.cons ?_ (List.pairwise_singleton _ _)) <;>
        intro e' he' <;> fin_cases he' <;> decide)

end PlantSense
